import Mathlib

/-!
Shallow embedding of the relational store of `rrh2` (src/db/jsondb.rs) and the
consistency workflows layered on it (src/commands/repository.rs,
src/commands/prune.rs), together with theorems settling the spec claims.

Modelling conventions:
* Rust `String` / `PathBuf` become `String`; filesystem probes (`path.exists()`)
  are passed in as a function parameter `pathExists : String → Bool`.
* `Vec<T>` becomes `List T`; `Result<T>` becomes `Except RrhError T`.
* Stateful methods on `JsonDB` become functions `JsonDB → … → result × JsonDB`.
* The `last_modified` / `last_access` timestamps are omitted: they come from the
  wall clock and the filesystem and no claim below mentions them.
-/

namespace Rrh

/-- `Repository` from src/entities.rs (timestamp field omitted, see header). -/
structure Repository where
  id : String
  path : String
  description : Option String
deriving DecidableEq, Repr

/-- `Group` from src/entities.rs; the source field `abbrev` is a Lean keyword,
hence the guillemets. -/
structure Group where
  name : String
  note : String
  «abbrev» : Option Bool
deriving DecidableEq, Repr

/-- `Group::new_with` from src/entities.rs. -/
def Group.new_with (name note : String) (ab : Option Bool) : Group :=
  ⟨name, note, ab⟩

/-- `Group::new` from src/entities.rs: empty note, `Some(false)` abbrev. -/
def Group.new (name : String) : Group :=
  Group.new_with name "" (some false)

/-- `Relation` from src/entities.rs. -/
structure Relation where
  id : String
  group : String
deriving DecidableEq, Repr

/-- `Relation::new` from src/entities.rs. -/
def Relation.new (id group : String) : Relation :=
  ⟨id, group⟩

/-- `RepositoryWithGroups` from src/entities.rs. -/
structure RepositoryWithGroups where
  repo : Repository
  groups : List Group
deriving DecidableEq, Repr

/-- The error variants of `RrhError` (src/cli.rs) reachable from the store
operations modelled here. -/
inductive RrhError where
  | GroupNotFound : String → RrhError
  | RepositoryNotFound : String → RrhError
  | RelationNotFound : String → String → RrhError
  | RepositoryExists : String → RrhError
  | GroupExists : String → RrhError
  | Arrays : List RrhError → RrhError
deriving Repr

/-- The in-memory store `JsonDB` (src/db/jsondb.rs), minus the
`last_modified` timestamp (only touched during serialization). -/
structure JsonDB where
  repositories : List Repository
  groups : List Group
  relations : List Relation
deriving Repr

/-- `Iterator::position`: index of the first element satisfying `p`. -/
def position (p : α → Bool) : List α → Option Nat
  | [] => none
  | a :: as => if p a then some 0 else (position p as).map (· + 1)

/-- `JsonDB::find_repository`. -/
def JsonDB.find_repository (db : JsonDB) (id : String) : Option Repository :=
  db.repositories.find? (fun r => r.id == id)

/-- `JsonDB::find_group`. -/
def JsonDB.find_group (db : JsonDB) (name : String) : Option Group :=
  db.groups.find? (fun g => g.name == name)

/-- The accumulation loop inside `JsonDB::find_groups_of`: look up each name,
push the group when found, silently skip names with no group. -/
def JsonDB.collect_groups (db : JsonDB) : List String → List Group
  | [] => []
  | n :: rest =>
    match db.find_group n with
    | some g => g :: db.collect_groups rest
    | none => db.collect_groups rest

/-- `JsonDB::find_groups_of` (always returns `Ok` in the source). -/
def JsonDB.find_groups_of (db : JsonDB) (id : String) : Except RrhError (List Group) :=
  .ok (db.collect_groups ((db.relations.filter (fun r => r.id == id)).map (fun r => r.group)))

/-- The accumulation loop inside `JsonDB::find_repositories_of`. -/
def JsonDB.collect_repositories (db : JsonDB) : List String → List Repository
  | [] => []
  | n :: rest =>
    match db.find_repository n with
    | some r => r :: db.collect_repositories rest
    | none => db.collect_repositories rest

/-- `JsonDB::find_repositories_of` (always returns `Ok` in the source). -/
def JsonDB.find_repositories_of (db : JsonDB) (group_name : String) :
    Except RrhError (List Repository) :=
  .ok (db.collect_repositories
    ((db.relations.filter (fun r => r.group == group_name)).map (fun r => r.id)))

/-- `JsonDB::find_repository_with_groups`. -/
def JsonDB.find_repository_with_groups (db : JsonDB) (id : String) :
    Option RepositoryWithGroups :=
  match db.find_repository id with
  | some repo =>
    match db.find_groups_of id with
    | .ok groups => some ⟨repo, groups⟩
    | .error _ => none
  | none => none

/-- `JsonDB::has_relation`. -/
def JsonDB.has_relation (db : JsonDB) (repo_id group_name : String) : Bool :=
  db.relations.any (fun r => r.id == repo_id && r.group == group_name)

/-- `JsonDB::find_relation`. -/
def JsonDB.find_relation (db : JsonDB) (repo_id group_name : String) : Option Relation :=
  db.relations.find? (fun r => r.id == repo_id && r.group == group_name)

/-- `JsonDB::register_group`. -/
def JsonDB.register_group (db : JsonDB) (g : Group) : Except RrhError Unit × JsonDB :=
  match db.find_group g.name with
  | some _ => (.error (.GroupExists g.name), db)
  | none => (.ok (), { db with groups := db.groups ++ [g] })

/-- The first loop of `JsonDB::register` (src/db/jsondb.rs lines 151-155),
embedded exactly as written: the condition is `!find_group(name).is_none()`,
i.e. the branch fires when the group ALREADY exists, and the `?` on
`register_group` then propagates its `GroupExists` error. -/
def JsonDB.register_groups_loop (db : JsonDB) : List String → Except RrhError Unit × JsonDB
  | [] => (.ok (), db)
  | name :: rest =>
    if !(db.find_group name).isNone then
      match db.register_group (Group.new name) with
      | (.error e, db') => (.error e, db')
      | (.ok _, db') => db'.register_groups_loop rest
    else
      db.register_groups_loop rest

/-- `JsonDB::relate`. -/
def JsonDB.relate (db : JsonDB) (id group_name : String) :
    Except RrhError Relation × JsonDB :=
  match db.find_relation id group_name with
  | some relation => (.ok relation, db)
  | none =>
    let relation := Relation.new id group_name
    (.ok relation, { db with relations := db.relations ++ [relation] })

/-- The second loop of `JsonDB::register`: relate each name, collecting errors. -/
def JsonDB.relate_loop (db : JsonDB) (id : String) : List String → List RrhError × JsonDB
  | [] => ([], db)
  | name :: rest =>
    match db.relate id name with
    | (.ok _, db') => db'.relate_loop id rest
    | (.error e, db') =>
      let (errs, db'') := db'.relate_loop id rest
      (e :: errs, db'')

/-- `JsonDB::register` (src/db/jsondb.rs lines 147-168). -/
def JsonDB.register (db : JsonDB) (r : Repository) (group_names : List String) :
    Except RrhError Unit × JsonDB :=
  match db.find_repository r.id with
  | some _ => (.error (.RepositoryExists r.id), db)
  | none =>
    match db.register_groups_loop group_names with
    | (.error e, db') => (.error e, db')
    | (.ok _, db') =>
      let (errs, db'') := db'.relate_loop r.id group_names
      let db3 := { db'' with repositories := db''.repositories ++ [r] }
      if errs.length > 0 then (.error (.Arrays errs), db3) else (.ok (), db3)

/-- `iter_mut().find(|g| g.name == name).map(|g| *g = group)`: replace the
first group whose name matches. -/
def replace_first_group : List Group → String → Group → List Group
  | [], _, _ => []
  | g :: rest, name, newG =>
    if g.name == name then newG :: rest else g :: replace_first_group rest name newG

/-- Replace the first repository whose id matches. -/
def replace_first_repository : List Repository → String → Repository → List Repository
  | [], _, _ => []
  | r :: rest, id, newR =>
    if r.id == id then newR :: rest else r :: replace_first_repository rest id newR

/-- `update_relations_all_for_group` (src/db/jsondb.rs lines 271-276):
rewrite the group field of every relation whose group equals `old_name`. -/
def JsonDB.update_relations_all_for_group (db : JsonDB) (old_name new_name : String) :
    Except RrhError Unit × JsonDB :=
  let rels := db.relations.map
    (fun r => if r.group == old_name then { r with group := new_name } else r)
  (.ok (), { db with relations := rels })

/-- `update_relations_all_for_repository` (src/db/jsondb.rs lines 264-269),
embedded exactly as written: like the group variant, its body filters on
`r.group == old_name` and assigns `r.group = new_name` — it touches the GROUP
field, never the repository id field. -/
def JsonDB.update_relations_all_for_repository (db : JsonDB) (old_name new_name : String) :
    Except RrhError Unit × JsonDB :=
  let rels := db.relations.map
    (fun r => if r.group == old_name then { r with group := new_name } else r)
  (.ok (), { db with relations := rels })

/-- `JsonDB::update_group` (src/db/jsondb.rs lines 178-191). -/
def JsonDB.update_group (db : JsonDB) (name : String) (group : Group) :
    Except RrhError Unit × JsonDB :=
  if db.groups.any (fun g => g.name == name) then
    let db' := { db with groups := replace_first_group db.groups name group }
    db'.update_relations_all_for_group name group.name
  else (.error (.GroupNotFound name), db)

/-- `JsonDB::update_repository` (src/db/jsondb.rs lines 193-205). -/
def JsonDB.update_repository (db : JsonDB) (id : String) (r : Repository) :
    Except RrhError Unit × JsonDB :=
  if db.repositories.any (fun repo => repo.id == id) then
    let db' := { db with repositories := replace_first_repository db.repositories id r }
    db'.update_relations_all_for_repository id r.id
  else (.error (.RepositoryNotFound id), db)

/-- `JsonDB::delete_relation`. -/
def JsonDB.delete_relation (db : JsonDB) (id group_name : String) :
    Except RrhError Unit × JsonDB :=
  match position (fun r => r.id == id && r.group == group_name) db.relations with
  | some i => (.ok (), { db with relations := db.relations.eraseIdx i })
  | none => (.error (.RelationNotFound id group_name), db)

/-- `relation_indexes` (src/db/jsondb.rs lines 308-313): the indices, counted
from `i`, of the relations satisfying `p`. -/
def matching_indexes_from (i : Nat) (p : Relation → Bool) : List Relation → List Nat
  | [] => []
  | r :: rest =>
    if p r then i :: matching_indexes_from (i + 1) p rest
    else matching_indexes_from (i + 1) p rest

def matching_indexes (l : List Relation) (p : Relation → Bool) : List Nat :=
  matching_indexes_from 0 p l

/-- The removal loop shared by `delete_relation_all_for_repository` and
`delete_relation_all_for_group`: remove each index in turn. -/
def remove_indexes (l : List Relation) (idxs : List Nat) : List Relation :=
  idxs.foldl (fun acc i => acc.eraseIdx i) l

/-- `delete_relation_all_for_repository` (src/db/jsondb.rs lines 278-291). -/
def JsonDB.delete_relation_all_for_repository (db : JsonDB) (id : String) :
    Except RrhError Unit × JsonDB :=
  let rels :=
    remove_indexes db.relations ((matching_indexes db.relations (fun r => r.id == id)).reverse)
  (.ok (), { db with relations := rels })

/-- `delete_relation_all_for_group` (src/db/jsondb.rs lines 293-306). -/
def JsonDB.delete_relation_all_for_group (db : JsonDB) (group_name : String) :
    Except RrhError Unit × JsonDB :=
  let rels :=
    remove_indexes db.relations
      ((matching_indexes db.relations (fun r => r.group == group_name)).reverse)
  (.ok (), { db with relations := rels })

/-- `JsonDB::delete_repository` (src/db/jsondb.rs lines 232-240). -/
def JsonDB.delete_repository (db : JsonDB) (id : String) : Except RrhError Unit × JsonDB :=
  match position (fun r => r.id == id) db.repositories with
  | some i =>
    let db' := { db with repositories := db.repositories.eraseIdx i }
    db'.delete_relation_all_for_repository id
  | none => (.error (.RepositoryNotFound id), db)

/-- `JsonDB::delete_group` (src/db/jsondb.rs lines 242-251). -/
def JsonDB.delete_group (db : JsonDB) (group_name : String) : Except RrhError Unit × JsonDB :=
  match position (fun g => g.name == group_name) db.groups with
  | some i =>
    let db' := { db with groups := db.groups.eraseIdx i }
    db'.delete_relation_all_for_group group_name
  | none => (.error (.GroupNotFound group_name), db)

/-! ### The prune command (src/commands/prune.rs)

The filesystem probe `r.path.exists()` is passed in as `pathExists`; the
interactive confirmation branch (`opts.inquiry`, an external prompt) is not
modelled — the claims concern the non-interactive behaviour. -/

/-- `is_empty_group` (src/commands/prune.rs lines 142-144). The source
unwraps the `Result`, which never errs; the error branch here is dead code. -/
def is_empty_group (db : JsonDB) (group_name : String) : Bool :=
  match db.find_repositories_of group_name with
  | .ok l => l.length == 0
  | .error _ => false

/-- `find_empty_groups` (src/commands/prune.rs lines 135-140). -/
def find_empty_groups (db : JsonDB) : List String :=
  (db.groups.filter (fun g => is_empty_group db g.name)).map (fun g => g.name)

/-- `find_non_exists_path_repositoreis` (src/commands/prune.rs lines 128-133;
name spelled as in the source). -/
def find_non_exists_path_repositoreis (pathExists : String → Bool) (db : JsonDB) :
    List Repository :=
  db.repositories.filter (fun r => !(pathExists r.path))

/-- The group-deletion loop of `prune_impl`, collecting per-item errors. -/
def delete_groups_loop (db : JsonDB) : List String → List RrhError × JsonDB
  | [] => ([], db)
  | n :: rest =>
    match db.delete_group n with
    | (.ok _, db') => delete_groups_loop db' rest
    | (.error e, db') =>
      let (errs, db'') := delete_groups_loop db' rest
      (e :: errs, db'')

/-- The repository-deletion loop of `prune_impl`. -/
def delete_repositories_loop (db : JsonDB) : List Repository → List RrhError × JsonDB
  | [] => ([], db)
  | r :: rest =>
    match db.delete_repository r.id with
    | (.ok _, db') => delete_repositories_loop db' rest
    | (.error e, db') =>
      let (errs, db'') := delete_repositories_loop db' rest
      (e :: errs, db'')

/-- `prune_impl` (src/commands/prune.rs lines 146-163). -/
def prune_impl (db : JsonDB) (target_groups : List String) (target_repos : List Repository) :
    Except RrhError Bool × JsonDB :=
  let (errs1, db1) := delete_groups_loop db target_groups
  let (errs2, db2) := delete_repositories_loop db1 target_repos
  let errs := errs1 ++ errs2
  if errs.length > 0 then (.error (.Arrays errs), db2) else (.ok true, db2)

/-- `perform_prune` (src/commands/prune.rs lines 12-29), inquiry prompt
omitted. Note `dry_run` only affects the returned persist flag. -/
def perform_prune (pathExists : String → Bool) (db : JsonDB) (dry_run : Bool) :
    Except RrhError Bool × JsonDB :=
  let target_groups := find_empty_groups db
  let target_repos := find_non_exists_path_repositoreis pathExists db
  match prune_impl db target_groups target_repos with
  | (.ok true, db') => (.ok !dry_run, db')
  | (.ok false, db') => (.ok false, db')
  | (.error e, db') => (.error e, db')

/-- The persistence decision of `perform` (src/main.rs lines 49-53): the
mutated snapshot is stored only when the command returns `Ok(true)`;
otherwise the backing file keeps the old contents. -/
def persisted_db (old : JsonDB) (result : Except RrhError Bool × JsonDB) : JsonDB :=
  match result with
  | (.ok true, db) => db
  | _ => old

/-! ### The repository update command (src/commands/repository.rs)

The `auto_create_group` policy flag (`config.is_env_value_true`) is passed in
as `autoCreate : Option Bool`; the `last_access` filesystem refresh inside
`build_new_repo` is omitted (timestamps are not modelled, see the header). -/

/-- `RepositoryUpdateOpts` from src/cli.rs (the fields used by the update
workflow). -/
structure RepositoryUpdateOpts where
  id : Option String
  path : Option String
  description : Option String
  groups : List String
  new_groups : List String
  repository_id : String
  dry_run : Bool
deriving Repr

/-- `RepositoryUpdateOpts::renew_groups` (src/commands/repository.rs). -/
def RepositoryUpdateOpts.renew_groups (o : RepositoryUpdateOpts) : Bool :=
  o.new_groups.length > 0

/-- `RepositoryUpdateOpts::build_new_repo`: overlay the supplied fields onto
the current repository. -/
def RepositoryUpdateOpts.build_new_repo (o : RepositoryUpdateOpts) (r : Repository) :
    Repository :=
  let r1 := match o.id with | some i => { r with id := i } | none => r
  let r2 := match o.path with | some p => { r1 with path := p } | none => r1
  match o.description with | some d => { r2 with description := some d } | none => r2

/-- `find_groups` (src/commands/repository.rs lines 127-135): the replacement
list wins when non-empty, else current names extended with the additive list. -/
def find_groups (groups : List Group) (o : RepositoryUpdateOpts) : List String :=
  if o.renew_groups then o.new_groups
  else (groups.map (fun g => g.name)) ++ o.groups

/-- The loop of `remove_all_relations` (src/commands/repository.rs lines 69-83). -/
def remove_all_relations_loop (db : JsonDB) (repo_id : String) :
    List Group → List RrhError × JsonDB
  | [] => ([], db)
  | g :: rest =>
    if db.has_relation repo_id g.name then
      match db.delete_relation repo_id g.name with
      | (.ok _, db') => remove_all_relations_loop db' repo_id rest
      | (.error e, db') =>
        let (errs, db'') := remove_all_relations_loop db' repo_id rest
        (e :: errs, db'')
    else remove_all_relations_loop db repo_id rest

/-- `remove_all_relations` (src/commands/repository.rs lines 69-83). -/
def remove_all_relations (db : JsonDB) (groups : List Group) (repo_id : String) :
    Except RrhError Unit × JsonDB :=
  let (errs, db') := remove_all_relations_loop db repo_id groups
  if errs.length > 0 then (.error (.Arrays errs), db') else (.ok (), db')

/-- `relate_with` (src/commands/repository.rs lines 103-118). -/
def relate_with (autoCreate : Option Bool) (db : JsonDB) (group_name repo_id : String) :
    Except RrhError Unit × JsonDB :=
  if !(db.has_relation repo_id group_name) then
    let step : Except RrhError Unit × JsonDB :=
      if (db.find_group group_name).isNone then
        match autoCreate with
        | some true => db.register_group (Group.new group_name)
        | _ => (.error (.GroupNotFound group_name), db)
      else (.ok (), db)
    match step with
    | (.error e, db') => (.error e, db')
    | (.ok _, db') =>
      match db'.relate repo_id group_name with
      | (.error e, db'') => (.error e, db'')
      | (.ok _, db'') => (.ok (), db'')
  else (.ok (), db)

/-- The relate loop of `repository_update_impl`. -/
def relate_with_loop (autoCreate : Option Bool) (db : JsonDB) (id : String) :
    List String → List RrhError × JsonDB
  | [] => ([], db)
  | gname :: rest =>
    match relate_with autoCreate db gname id with
    | (.ok _, db') => relate_with_loop autoCreate db' id rest
    | (.error e, db') =>
      let (errs, db'') := relate_with_loop autoCreate db' id rest
      (e :: errs, db'')

/-- `repository_update_impl` (src/commands/repository.rs lines 85-101). -/
def repository_update_impl (autoCreate : Option Bool) (db : JsonDB) (old_id : String)
    (r : Repository) (g : List String) : Except RrhError Bool × JsonDB :=
  match db.update_repository old_id r with
  | (.error e, db') => (.error e, db')
  | (.ok _, db') =>
    let (errs, db'') := relate_with_loop autoCreate db' r.id g
    if errs.length > 0 then (.error (.Arrays errs), db'') else (.ok true, db'')

/-- `perform_update` (src/commands/repository.rs lines 54-67): the rename-safe
repository update workflow. -/
def perform_update (autoCreate : Option Bool) (db : JsonDB) (opts : RepositoryUpdateOpts) :
    Except RrhError Bool × JsonDB :=
  match db.find_repository_with_groups opts.repository_id with
  | some r =>
    let new_repo := opts.build_new_repo r.repo
    let g := find_groups r.groups opts
    if opts.renew_groups then
      match remove_all_relations db r.groups opts.repository_id with
      | (.error e, db') => (.error e, db')
      | (.ok _, db') => repository_update_impl autoCreate db' opts.repository_id new_repo g
    else repository_update_impl autoCreate db opts.repository_id new_repo g
  | none => (.error (.RepositoryNotFound opts.repository_id), db)

/-- The "no duplicate Relation pairs" invariant of spec §3. -/
def PairsNodup (db : JsonDB) : Prop :=
  (db.relations.map (fun r => (r.id, r.group))).Nodup

instance (db : JsonDB) : Decidable (PairsNodup db) := by
  unfold PairsNodup
  infer_instance

/-! ## Helper lemmas -/

theorem position_isSome_of_exists {α} (p : α → Bool) :
    ∀ l : List α, (∃ x ∈ l, p x = true) → ∃ i, position p l = some i := by
  intro l
  induction l with
  | nil =>
    rintro ⟨x, hx, _⟩
    exact absurd hx (List.not_mem_nil x)
  | cons a as ih =>
    rintro ⟨x, hx, hpx⟩
    by_cases ha : p a
    · exact ⟨0, by simp [position, ha]⟩
    · have hx' : x ∈ as := by
        rcases List.mem_cons.mp hx with h | h
        · exact absurd (by rwa [h] at hpx) ha
        · exact h
      obtain ⟨i, hi⟩ := ih ⟨x, hx', hpx⟩
      exact ⟨i + 1, by simp [position, ha, hi]⟩

theorem find?_append_of_none {α} {p : α → Bool} {l₁ l₂ : List α} (h : l₁.find? p = none) :
    (l₁ ++ l₂).find? p = l₂.find? p := by
  rw [List.find?_append, h, Option.none_or]

theorem collect_groups_eq_filterMap (db : JsonDB) :
    ∀ ns : List String, db.collect_groups ns = ns.filterMap (fun n => db.find_group n) := by
  intro ns
  induction ns with
  | nil => rfl
  | cons n rest ih =>
    unfold JsonDB.collect_groups
    cases h : db.find_group n <;> simp [h, ih, List.filterMap_cons]

theorem collect_repositories_eq_filterMap (db : JsonDB) :
    ∀ ns : List String,
      db.collect_repositories ns = ns.filterMap (fun n => db.find_repository n) := by
  intro ns
  induction ns with
  | nil => rfl
  | cons n rest ih =>
    unfold JsonDB.collect_repositories
    cases h : db.find_repository n <;> simp [h, ih, List.filterMap_cons]

/-! ## Claim theorems -/

/-- C9: registering an identifier that is already present fails with
`RepositoryExists` and leaves the repository, group and relation collections
exactly as they were (the returned store is the input store). -/
theorem register_existing_fails_unchanged (db : JsonDB) (r : Repository)
    (gs : List String) (h : (db.find_repository r.id).isSome = true) :
    db.register r gs = (.error (.RepositoryExists r.id), db) := by
  obtain ⟨rep, hrep⟩ := Option.isSome_iff_exists.mp h
  unfold JsonDB.register
  rw [hrep]

/-- C9 witness. -/
theorem register_existing_fails_unchanged_witness :
    (((⟨[⟨"r1", "p1", none⟩], [], []⟩ : JsonDB).find_repository "r1").isSome = true) ∧
    (⟨[⟨"r1", "p1", none⟩], [], []⟩ : JsonDB).register ⟨"r1", "p2", none⟩ ["g"] =
      (.error (.RepositoryExists "r1"), ⟨[⟨"r1", "p1", none⟩], [], []⟩) :=
  ⟨by decide, register_existing_fails_unchanged ⟨[⟨"r1", "p1", none⟩], [], []⟩
    ⟨"r1", "p2", none⟩ ["g"] (by decide)⟩

/-- C8: when the pair already exists, `relate` returns the stored relation and
leaves the store untouched; and `relate` is idempotent — relating the same
pair twice yields the same store as relating it once. -/
theorem relate_idempotent (db : JsonDB) (id gname : String) :
    (∀ rel, db.find_relation id gname = some rel → db.relate id gname = (.ok rel, db)) ∧
    ((db.relate id gname).2.relate id gname).2 = (db.relate id gname).2 := by
  constructor
  · intro rel h
    unfold JsonDB.relate
    rw [h]
  · cases hfr : db.find_relation id gname with
    | some rel => simp [JsonDB.relate, hfr]
    | none =>
      have h1 : db.relate id gname = (.ok (Relation.new id gname),
          { db with relations := db.relations ++ [Relation.new id gname] }) := by
        unfold JsonDB.relate
        rw [hfr]
      rw [h1]
      have h2 : ({ db with relations := db.relations ++ [Relation.new id gname] } :
          JsonDB).find_relation id gname = some (Relation.new id gname) := by
        unfold JsonDB.find_relation at hfr ⊢
        rw [find?_append_of_none hfr]
        simp [Relation.new]
      unfold JsonDB.relate
      rw [h2]

/-- C8 witness. -/
theorem relate_idempotent_witness :
    ((⟨[], [], [⟨"x", "g"⟩]⟩ : JsonDB).find_relation "x" "g" = some ⟨"x", "g"⟩) ∧
    (⟨[], [], [⟨"x", "g"⟩]⟩ : JsonDB).relate "x" "g" =
      (.ok ⟨"x", "g"⟩, ⟨[], [], [⟨"x", "g"⟩]⟩) :=
  ⟨by decide, (relate_idempotent ⟨[], [], [⟨"x", "g"⟩]⟩ "x" "g").1 ⟨"x", "g"⟩ (by decide)⟩

/-- C10: the membership queries never fail and silently skip dangling
relations — `find_groups_of` returns `Ok` with exactly the groups that exist
among the related names, `find_repositories_of` likewise for repositories,
and `find_repository_with_groups` is `some` for every existing repository. -/
theorem queries_skip_dangling (db : JsonDB) (id gname : String) :
    (db.find_groups_of id =
      .ok (((db.relations.filter (fun r => r.id == id)).map (fun r => r.group)).filterMap
        (fun n => db.find_group n))) ∧
    (db.find_repositories_of gname =
      .ok (((db.relations.filter (fun r => r.group == gname)).map (fun r => r.id)).filterMap
        (fun n => db.find_repository n))) ∧
    ((db.find_repository id).isSome = true →
      (db.find_repository_with_groups id).isSome = true) := by
  refine ⟨?_, ?_, ?_⟩
  · unfold JsonDB.find_groups_of
    rw [collect_groups_eq_filterMap]
  · unfold JsonDB.find_repositories_of
    rw [collect_repositories_eq_filterMap]
  · intro h
    obtain ⟨rep, hrep⟩ := Option.isSome_iff_exists.mp h
    unfold JsonDB.find_repository_with_groups
    rw [hrep]
    rfl

/-- C10 witness: a repository whose only relation dangles (names a group that
does not exist) is still returned by `find_repository_with_groups`. -/
theorem queries_skip_dangling_witness :
    (((⟨[⟨"r", "p", none⟩], [], [⟨"r", "ghost"⟩]⟩ : JsonDB).find_repository "r").isSome
      = true) ∧
    ((⟨[⟨"r", "p", none⟩], [], [⟨"r", "ghost"⟩]⟩ :
        JsonDB).find_repository_with_groups "r").isSome = true :=
  ⟨by decide,
    (queries_skip_dangling ⟨[⟨"r", "p", none⟩], [], [⟨"r", "ghost"⟩]⟩ "r" "g").2.2 (by decide)⟩

theorem mem_replace_first_group (name : String) (newG : Group) :
    ∀ l : List Group, (∃ x ∈ l, x.name = name) → newG ∈ replace_first_group l name newG := by
  intro l
  induction l with
  | nil =>
    rintro ⟨x, hx, _⟩
    exact absurd hx (List.not_mem_nil x)
  | cons a as ih =>
    rintro ⟨x, hx, hxn⟩
    unfold replace_first_group
    by_cases ha : (a.name == name) = true
    · rw [if_pos ha]
      exact List.mem_cons_self _ _
    · rw [if_neg ha]
      rcases List.mem_cons.mp hx with hxa | hxs
      · exact absurd (beq_iff_eq.mpr (hxa ▸ hxn)) ha
      · exact List.mem_cons_of_mem _ (ih ⟨x, hxs, hxn⟩)

/-- C5: `update_group` on an existing group succeeds, stores the new group
value in place of the matched one, rewrites the group field of every relation
from the old name to the new group's name (length preserved, every old-name
relation re-pointed), and when the names differ no relation references the
old name afterwards. -/
theorem update_group_rename_safe (db : JsonDB) (name : String) (group : Group)
    (h : db.groups.any (fun g => g.name == name) = true) (hne : name ≠ group.name) :
    (db.update_group name group).1 = .ok () ∧
    group ∈ (db.update_group name group).2.groups ∧
    (db.update_group name group).2.relations.length = db.relations.length ∧
    (∀ r ∈ db.relations, r.group = name →
      Relation.mk r.id group.name ∈ (db.update_group name group).2.relations) ∧
    (db.update_group name group).2.relations.filter (fun r => r.group == name) = [] := by
  have hdb : db.update_group name group =
      (.ok (), { db with
        groups := replace_first_group db.groups name group,
        relations := db.relations.map
          (fun r => if r.group == name then { r with group := group.name } else r) }) := by
    unfold JsonDB.update_group JsonDB.update_relations_all_for_group
    rw [if_pos h]
  refine ⟨by rw [hdb], ?_, by rw [hdb]; simp, ?_, ?_⟩
  · rw [hdb]
    refine mem_replace_first_group name group db.groups ?_
    obtain ⟨x, hx, hbeq⟩ := List.any_eq_true.mp h
    exact ⟨x, hx, beq_iff_eq.mp hbeq⟩
  · intro r hr hrg
    rw [hdb]
    refine List.mem_map.mpr ⟨r, hr, ?_⟩
    simp [hrg]
  · rw [hdb]
    refine List.filter_eq_nil_iff.mpr ?_
    intro a ha
    obtain ⟨r, _, hra⟩ := List.mem_map.mp ha
    by_cases hg : r.group == name
    · subst hra
      simp only [hg, if_true, beq_iff_eq]
      exact fun hcontra => hne (hcontra.symm)
    · subst hra
      simp only [if_neg hg]
      exact fun hcontra => hg hcontra

/-- C5 witness: renaming group "no-group" to "current". -/
theorem update_group_rename_safe_witness :
    ((⟨[], [Group.new "no-group"], [⟨"x", "no-group"⟩]⟩ : JsonDB).groups.any
      (fun g => g.name == "no-group") = true) ∧
    ((⟨[], [Group.new "no-group"], [⟨"x", "no-group"⟩]⟩ : JsonDB).update_group "no-group"
      (Group.new "current")).2.relations.filter (fun r => r.group == "no-group") = [] :=
  ⟨by decide,
    (update_group_rename_safe ⟨[], [Group.new "no-group"], [⟨"x", "no-group"⟩]⟩
      "no-group" (Group.new "current") (by decide) (by decide)).2.2.2.2⟩

/-- C1: evaluation at the failing input. On an empty store,
`register(⟨"r1","p1",-⟩, ["g1"])` succeeds but creates NO group (the source's
condition `!find_group(name).is_none()` is inverted, so unknown groups are
never auto-created); and when group "g1" already exists, `register` fails
with `GroupExists` instead of succeeding — contradicting the claim that
unknown groups are auto-created and registration succeeds. -/
theorem register_autocreate_divergence :
    ((⟨[], [], []⟩ : JsonDB).register ⟨"r1", "p1", none⟩ ["g1"] =
      (.ok (), ⟨[⟨"r1", "p1", none⟩], [], [⟨"r1", "g1"⟩]⟩)) ∧
    ((⟨[], [Group.new "g1"], []⟩ : JsonDB).register ⟨"r1", "p1", none⟩ ["g1"] =
      (.error (.GroupExists "g1"), ⟨[], [Group.new "g1"], []⟩)) :=
  ⟨rfl, rfl⟩

/-- C2: evaluation at the failing input. Renaming repository "a" to "b" via
the additive-groups path of `perform_update` reports success but leaves the
old relation `("a","g")` in the store (the helper that should re-point
relation repository ids instead rewrites group fields), so a relation with
repository field "a" survives — contradicting the claim that no relation
points at the stale id. -/
theorem perform_update_rename_stale_relation :
    (perform_update (some false) ⟨[⟨"a", "p", none⟩], [Group.new "g"], [⟨"a", "g"⟩]⟩
      ⟨some "b", none, none, [], [], "a", false⟩ =
      (.ok true, ⟨[⟨"b", "p", none⟩], [Group.new "g"], [⟨"a", "g"⟩, ⟨"b", "g"⟩]⟩)) ∧
    (perform_update (some false) ⟨[⟨"a", "p", none⟩], [Group.new "g"], [⟨"a", "g"⟩]⟩
      ⟨some "b", none, none, [], [], "a", false⟩).2.relations.filter
        (fun r => r.id == "a") ≠ [] :=
  ⟨rfl, by decide⟩

/-- C4: evaluation at the failing input. `update_repository("a", ⟨"b",…⟩)` on
a store holding the relation `("x","a")` rewrites that relation to
`("x","b")` (the repository-relation helper filters and assigns the GROUP
field, a copy of the group helper), so the relation collection is NOT left
as it was — contradicting the claim that a bare repository update rewrites
no relation. -/
theorem update_repository_rewrites_relation_groups :
    ((⟨[⟨"a", "p", none⟩], [], [⟨"x", "a"⟩]⟩ : JsonDB).update_repository "a"
      ⟨"b", "p", none⟩ = (.ok (), ⟨[⟨"b", "p", none⟩], [], [⟨"x", "b"⟩]⟩)) ∧
    ((⟨[⟨"a", "p", none⟩], [], [⟨"x", "a"⟩]⟩ : JsonDB).update_repository "a"
      ⟨"b", "p", none⟩).2.relations ≠ [⟨"x", "a"⟩] :=
  ⟨rfl, by decide⟩

/-- C3 counterexample: from the empty store, the public mutations
`register_group "a"`, `relate "x" "a"`, `relate "x" "b"` reach a state with
no duplicate pairs, yet `update_group "a" (Group.new "b")` then rewrites
`("x","a")` to `("x","b")`, duplicating the already-present pair `("x","b")`
— so not every public mutation preserves the no-duplicate invariant. -/
theorem update_group_creates_duplicate_pairs :
    PairsNodup
      ((((⟨[], [], []⟩ : JsonDB).register_group (Group.new "a")).2.relate
        "x" "a").2.relate "x" "b").2 ∧
    ¬ PairsNodup
      (((((⟨[], [], []⟩ : JsonDB).register_group (Group.new "a")).2.relate
        "x" "a").2.relate "x" "b").2.update_group "a" (Group.new "b")).2 := by
  constructor <;> decide

/-! ## The descending-index removal loop equals a filter -/

theorem matching_indexes_from_succ (p : Relation → Bool) :
    ∀ (l : List Relation) (i : Nat),
      matching_indexes_from (i + 1) p l = (matching_indexes_from i p l).map (· + 1) := by
  intro l
  induction l with
  | nil => intro i; rfl
  | cons r rest ih =>
    intro i
    unfold matching_indexes_from
    by_cases h : p r <;> simp [h, ih (i + 1)]

theorem matching_indexes_cons (p : Relation → Bool) (x : Relation) (xs : List Relation) :
    matching_indexes (x :: xs) p =
      if p x then 0 :: (matching_indexes xs p).map (· + 1)
      else (matching_indexes xs p).map (· + 1) := by
  have h1 : matching_indexes_from (0 + 1) p xs = (matching_indexes_from 0 p xs).map (· + 1) :=
    matching_indexes_from_succ p xs 0
  show (if p x then 0 :: matching_indexes_from (0 + 1) p xs
    else matching_indexes_from (0 + 1) p xs) = _
  rw [h1]
  rfl

theorem remove_indexes_map_succ (x : Relation) :
    ∀ (idxs : List Nat) (xs : List Relation),
      remove_indexes (x :: xs) (idxs.map (· + 1)) = x :: remove_indexes xs idxs := by
  intro idxs
  induction idxs with
  | nil => intro xs; rfl
  | cons i rest ih =>
    intro xs
    show remove_indexes (x :: xs.eraseIdx i) (rest.map (· + 1)) =
      x :: remove_indexes (xs.eraseIdx i) rest
    exact ih (xs.eraseIdx i)

theorem remove_indexes_append (l : List Relation) (a b : List Nat) :
    remove_indexes l (a ++ b) = remove_indexes (remove_indexes l a) b :=
  List.foldl_append _ _ _ _

/-- Removing, in descending order, the indices of the elements matching `p`
leaves exactly the elements not matching `p`. -/
theorem remove_matching_eq_filter (p : Relation → Bool) :
    ∀ l : List Relation,
      remove_indexes l ((matching_indexes l p).reverse) = l.filter (fun x => !(p x)) := by
  intro l
  induction l with
  | nil => rfl
  | cons x xs ih =>
    rw [matching_indexes_cons]
    by_cases h : p x
    · rw [if_pos h, List.reverse_cons, remove_indexes_append, ← List.map_reverse,
        remove_indexes_map_succ, ih]
      show (x :: xs.filter (fun x => !(p x))).eraseIdx 0 = _
      rw [List.filter_cons]
      simp [h]
    · rw [if_neg h, ← List.map_reverse, remove_indexes_map_succ, ih, List.filter_cons]
      simp [h]

/-! ## Preservation of the no-duplicate-pairs invariant -/

theorem pairsNodup_of_relations_eq {db db' : JsonDB} (h : db'.relations = db.relations)
    (hn : PairsNodup db) : PairsNodup db' := by
  unfold PairsNodup at *
  rw [h]
  exact hn

theorem pairsNodup_relate (db : JsonDB) (id gname : String) (h : PairsNodup db) :
    PairsNodup (db.relate id gname).2 := by
  cases hfr : db.find_relation id gname with
  | some rel => simpa [JsonDB.relate, hfr] using h
  | none =>
    have hrel : (db.relate id gname).2 =
        { db with relations := db.relations ++ [Relation.new id gname] } := by
      unfold JsonDB.relate
      rw [hfr]
    rw [hrel]
    have hfr' := hfr
    unfold JsonDB.find_relation at hfr'
    have hnone := List.find?_eq_none.mp hfr'
    unfold PairsNodup at h ⊢
    simp only [List.map_append, List.map_cons, List.map_nil]
    rw [List.nodup_append]
    refine ⟨h, List.nodup_singleton _, ?_⟩
    intro a ha hb
    obtain ⟨r, hrmem, hra⟩ := List.mem_map.mp ha
    have hpb : a = ((Relation.new id gname).id, (Relation.new id gname).group) := by
      simpa using hb
    rw [hpb] at hra
    apply hnone r hrmem
    have h1 : r.id = id := congrArg Prod.fst hra
    have h2 : r.group = gname := congrArg Prod.snd hra
    simp [h1, h2]

theorem pairsNodup_relate_loop (id : String) :
    ∀ (ns : List String) (db : JsonDB), PairsNodup db →
      PairsNodup (db.relate_loop id ns).2 := by
  intro ns
  induction ns with
  | nil => intro db h; exact h
  | cons n rest ih =>
    intro db h
    unfold JsonDB.relate_loop
    rcases hr : db.relate id n with ⟨fst, snd⟩
    have hsnd : PairsNodup snd := by
      have h2 := pairsNodup_relate db id n h
      rw [hr] at h2
      exact h2
    cases fst with
    | ok v => simpa using ih snd hsnd
    | error e =>
      rcases hl : snd.relate_loop id rest with ⟨errs, db''⟩
      have h3 := ih snd hsnd
      rw [hl] at h3
      simpa [hl] using h3

theorem register_groups_loop_state :
    ∀ (ns : List String) (db : JsonDB), (db.register_groups_loop ns).2 = db := by
  intro ns
  induction ns with
  | nil => intro db; rfl
  | cons n rest ih =>
    intro db
    unfold JsonDB.register_groups_loop
    cases hx : db.find_group n with
    | none =>
      simp only [hx, Option.isNone_none, Bool.not_true, Bool.false_eq_true, if_false]
      exact ih db
    | some g =>
      have hreg : db.register_group (Group.new n) = (.error (.GroupExists n), db) := by
        show (match db.find_group (Group.new n).name with
          | some _ => (Except.error (RrhError.GroupExists (Group.new n).name), db)
          | none => (Except.ok (), { db with groups := db.groups ++ [Group.new n] })) = _
        rw [show db.find_group (Group.new n).name = some g from hx]
        rfl
      simp only [hx, Option.isNone_some, Bool.not_false, if_true, hreg]

theorem pairsNodup_register_group (db : JsonDB) (g : Group) (h : PairsNodup db) :
    PairsNodup (db.register_group g).2 := by
  unfold JsonDB.register_group
  cases hf : db.find_group g.name with
  | some _ => exact h
  | none => exact pairsNodup_of_relations_eq rfl h

theorem pairsNodup_register (db : JsonDB) (r : Repository) (gs : List String)
    (h : PairsNodup db) : PairsNodup (db.register r gs).2 := by
  rcases hrl : db.relate_loop r.id gs with ⟨errs, db''⟩
  have h'' : PairsNodup db'' := by
    have h2 := pairsNodup_relate_loop r.id gs db h
    rw [hrl] at h2
    exact h2
  have hgl := register_groups_loop_state gs db
  cases hfr : db.find_repository r.id with
  | some _ =>
    unfold JsonDB.register
    rw [hfr]
    exact h
  | none =>
    unfold JsonDB.register
    rw [hfr]
    rcases hgl2 : db.register_groups_loop gs with ⟨fst, db'⟩
    have hdb' : db' = db := by
      rw [hgl2] at hgl
      exact hgl
    cases fst with
    | error e =>
      show PairsNodup db'
      rw [hdb']
      exact h
    | ok u =>
      show PairsNodup (match db'.relate_loop r.id gs with
        | (errs, db'') =>
          if errs.length > 0
          then ((Except.error (RrhError.Arrays errs) : Except RrhError Unit),
            { db'' with repositories := db''.repositories ++ [r] })
          else ((Except.ok () : Except RrhError Unit),
            { db'' with repositories := db''.repositories ++ [r] })).2
      rw [hdb', hrl]
      show PairsNodup (if errs.length > 0
        then ((Except.error (RrhError.Arrays errs) : Except RrhError Unit),
          { db'' with repositories := db''.repositories ++ [r] })
        else ((Except.ok () : Except RrhError Unit),
          { db'' with repositories := db''.repositories ++ [r] })).2
      by_cases he : errs.length > 0
      · rw [if_pos he]
        exact pairsNodup_of_relations_eq rfl h''
      · rw [if_neg he]
        exact pairsNodup_of_relations_eq rfl h''

theorem pairsNodup_delete_relation (db : JsonDB) (id gname : String) (h : PairsNodup db) :
    PairsNodup (db.delete_relation id gname).2 := by
  unfold JsonDB.delete_relation
  cases hp : position (fun r => r.id == id && r.group == gname) db.relations with
  | none => exact h
  | some i =>
    unfold PairsNodup at *
    exact List.Nodup.sublist
      (List.Sublist.map _ (List.eraseIdx_sublist db.relations i)) h

theorem pairsNodup_delete_repository (db : JsonDB) (id : String) (h : PairsNodup db) :
    PairsNodup (db.delete_repository id).2 := by
  unfold JsonDB.delete_repository
  cases hp : position (fun r => r.id == id) db.repositories with
  | none => exact h
  | some i =>
    unfold PairsNodup at *
    show (List.map (fun r => (r.id, r.group))
      (remove_indexes db.relations
        ((matching_indexes db.relations (fun r => r.id == id)).reverse))).Nodup
    rw [remove_matching_eq_filter]
    exact List.Nodup.sublist (List.Sublist.map _ (List.filter_sublist _)) h

theorem pairsNodup_delete_group (db : JsonDB) (gname : String) (h : PairsNodup db) :
    PairsNodup (db.delete_group gname).2 := by
  unfold JsonDB.delete_group
  cases hp : position (fun g => g.name == gname) db.groups with
  | none => exact h
  | some i =>
    unfold PairsNodup at *
    show (List.map (fun r => (r.id, r.group))
      (remove_indexes db.relations
        ((matching_indexes db.relations (fun r => r.group == gname)).reverse))).Nodup
    rw [remove_matching_eq_filter]
    exact List.Nodup.sublist (List.Sublist.map _ (List.filter_sublist _)) h

/-- C3 (amended): of the eight public mutations, the six that do not rewrite
relation pointers — register, register_group, relate, delete_relation,
delete_repository, delete_group — preserve the no-duplicate-pairs invariant;
`update_group` and `update_repository` do not, since their relation rewrite
can map a pair onto an already-present pair (see the counterexample). -/
theorem mutations_preserve_nodup_pairs (db : JsonDB) (r : Repository) (gs : List String)
    (g : Group) (id gname : String) (h : PairsNodup db) :
    PairsNodup (db.register r gs).2 ∧ PairsNodup (db.register_group g).2 ∧
    PairsNodup (db.relate id gname).2 ∧ PairsNodup (db.delete_relation id gname).2 ∧
    PairsNodup (db.delete_repository id).2 ∧ PairsNodup (db.delete_group gname).2 :=
  ⟨pairsNodup_register db r gs h, pairsNodup_register_group db g h,
    pairsNodup_relate db id gname h, pairsNodup_delete_relation db id gname h,
    pairsNodup_delete_repository db id h, pairsNodup_delete_group db gname h⟩

/-- C3 witness. -/
theorem mutations_preserve_nodup_pairs_witness :
    PairsNodup (⟨[], [Group.new "a"], [⟨"x", "a"⟩]⟩ : JsonDB) ∧
    PairsNodup ((⟨[], [Group.new "a"], [⟨"x", "a"⟩]⟩ : JsonDB).relate "y" "a").2 :=
  ⟨by decide, (mutations_preserve_nodup_pairs ⟨[], [Group.new "a"], [⟨"x", "a"⟩]⟩
    ⟨"r", "p", none⟩ ["a"] (Group.new "b") "y" "a" (by decide)).2.2.1⟩

/-- C6: deleting an existing group removes exactly the relations naming it
and leaves the repository collection untouched; deleting an existing
repository removes exactly the relations naming it and leaves the group
collection untouched. -/
theorem delete_cascades_frame (db : JsonDB) (name id : String)
    (hg : ∃ g ∈ db.groups, g.name = name) (hr : ∃ rp ∈ db.repositories, rp.id = id) :
    ((db.delete_group name).1 = .ok () ∧
     (db.delete_group name).2.repositories = db.repositories ∧
     (db.delete_group name).2.relations =
       db.relations.filter (fun r => !(r.group == name))) ∧
    ((db.delete_repository id).1 = .ok () ∧
     (db.delete_repository id).2.groups = db.groups ∧
     (db.delete_repository id).2.relations =
       db.relations.filter (fun r => !(r.id == id))) := by
  constructor
  · obtain ⟨i, hi⟩ := position_isSome_of_exists (fun g => g.name == name) db.groups
      (by obtain ⟨g, hgm, hgn⟩ := hg; exact ⟨g, hgm, by simp [hgn]⟩)
    have hdg : db.delete_group name =
        (.ok (), JsonDB.mk db.repositories (db.groups.eraseIdx i)
          (remove_indexes db.relations
            ((matching_indexes db.relations (fun r => r.group == name)).reverse))) := by
      unfold JsonDB.delete_group
      rw [hi]
      rfl
    rw [hdg]
    exact ⟨rfl, rfl, remove_matching_eq_filter _ _⟩
  · obtain ⟨i, hi⟩ := position_isSome_of_exists (fun rp => rp.id == id) db.repositories
      (by obtain ⟨rp, hrm, hrn⟩ := hr; exact ⟨rp, hrm, by simp [hrn]⟩)
    have hdr : db.delete_repository id =
        (.ok (), JsonDB.mk (db.repositories.eraseIdx i) db.groups
          (remove_indexes db.relations
            ((matching_indexes db.relations (fun r => r.id == id)).reverse))) := by
      unfold JsonDB.delete_repository
      rw [hi]
      rfl
    rw [hdr]
    exact ⟨rfl, rfl, remove_matching_eq_filter _ _⟩

/-- C6 witness. -/
theorem delete_cascades_frame_witness :
    (∃ g ∈ (⟨[⟨"a", "p", none⟩], [Group.new "g", Group.new "h"],
      [⟨"a", "g"⟩, ⟨"b", "g"⟩, ⟨"a", "h"⟩]⟩ : JsonDB).groups, g.name = "g") ∧
    ((⟨[⟨"a", "p", none⟩], [Group.new "g", Group.new "h"],
      [⟨"a", "g"⟩, ⟨"b", "g"⟩, ⟨"a", "h"⟩]⟩ : JsonDB).delete_group "g").2.relations =
      [⟨"a", "h"⟩] :=
  ⟨⟨Group.new "g", by decide, rfl⟩, by
    have h := (delete_cascades_frame ⟨[⟨"a", "p", none⟩], [Group.new "g", Group.new "h"],
      [⟨"a", "g"⟩, ⟨"b", "g"⟩, ⟨"a", "h"⟩]⟩ "g" "a"
      ⟨Group.new "g", by decide, rfl⟩ ⟨⟨"a", "p", none⟩, by decide, rfl⟩).1.2.2
    rw [h]
    decide⟩

/-! ## Deleting a uniquely-named entry equals a filter -/

theorem filter_key_length_le_one {α} (f : α → String) (n : String) :
    ∀ l : List α, (l.map f).Nodup → (l.filter (fun x => f x == n)).length ≤ 1 := by
  intro l
  induction l with
  | nil => intro _; simp
  | cons a as ih =>
    intro hnd
    rw [List.map_cons, List.nodup_cons] at hnd
    obtain ⟨hna, hnd'⟩ := hnd
    rw [List.filter_cons]
    by_cases h : (f a == n) = true
    · rw [if_pos h]
      have hz : as.filter (fun x => f x == n) = [] := by
        refine List.filter_eq_nil_iff.mpr ?_
        intro x hx hcon
        have h1 : f x = n := by simpa using hcon
        have h2 : f a = n := by simpa using h
        exact hna (by rw [h2, ← h1]; exact List.mem_map_of_mem f hx)
      rw [hz]
      simp
    · rw [if_neg h]
      exact ih hnd'

theorem position_eraseIdx_of_unique {α} (p : α → Bool) :
    ∀ l : List α, (∃ x ∈ l, p x = true) → (l.filter p).length ≤ 1 →
      ∃ i, position p l = some i ∧ l.eraseIdx i = l.filter (fun x => !(p x)) := by
  intro l
  induction l with
  | nil =>
    rintro ⟨x, hx, _⟩ _
    exact absurd hx (List.not_mem_nil x)
  | cons a as ih =>
    rintro ⟨x, hx, hpx⟩ hlen
    by_cases ha : p a = true
    · refine ⟨0, by simp [position, ha], ?_⟩
      have hz : as.filter p = [] := by
        rw [List.filter_cons, if_pos ha, List.length_cons] at hlen
        exact List.length_eq_zero.mp (Nat.le_zero.mp (Nat.succ_le_succ_iff.mp hlen))
      have hall := List.filter_eq_nil_iff.mp hz
      show as = (a :: as).filter (fun x => !(p x))
      rw [List.filter_cons, if_neg (by simp [ha])]
      exact (List.filter_eq_self.mpr (fun x hxm => by simp [hall x hxm])).symm
    · have hx' : x ∈ as := by
        rcases List.mem_cons.mp hx with hxa | hxs
        · exact absurd (by rwa [hxa] at hpx) ha
        · exact hxs
      have hlen' : (as.filter p).length ≤ 1 := by
        rw [List.filter_cons, if_neg ha] at hlen
        exact hlen
      obtain ⟨i, hpos, herase⟩ := ih ⟨x, hx', hpx⟩ hlen'
      refine ⟨i + 1, by simp [position, ha, hpos], ?_⟩
      show a :: as.eraseIdx i = _
      rw [List.filter_cons, if_pos (by simp [ha]), herase]

theorem delete_group_unique_spec (db : JsonDB) (n : String)
    (hnd : (db.groups.map (fun g => g.name)).Nodup)
    (hex : ∃ g ∈ db.groups, g.name = n) :
    db.delete_group n = (.ok (), ⟨db.repositories,
      db.groups.filter (fun g => !(g.name == n)),
      db.relations.filter (fun r => !(r.group == n))⟩) := by
  have hlen := filter_key_length_le_one (fun g => g.name) n db.groups hnd
  obtain ⟨i, hpos, herase⟩ := position_eraseIdx_of_unique (fun g => g.name == n) db.groups
    (by obtain ⟨g, hgm, hgn⟩ := hex; exact ⟨g, hgm, by simp [hgn]⟩) hlen
  unfold JsonDB.delete_group
  rw [hpos]
  show (Except.ok (), JsonDB.mk db.repositories (db.groups.eraseIdx i)
    (remove_indexes db.relations
      ((matching_indexes db.relations (fun r => r.group == n)).reverse))) = _
  rw [herase, remove_matching_eq_filter]

theorem delete_repository_unique_spec (db : JsonDB) (n : String)
    (hnd : (db.repositories.map (fun r => r.id)).Nodup)
    (hex : ∃ rp ∈ db.repositories, rp.id = n) :
    db.delete_repository n = (.ok (),
      ⟨db.repositories.filter (fun rp => !(rp.id == n)),
      db.groups,
      db.relations.filter (fun r => !(r.id == n))⟩) := by
  have hlen := filter_key_length_le_one (fun r => r.id) n db.repositories hnd
  obtain ⟨i, hpos, herase⟩ := position_eraseIdx_of_unique (fun rp => rp.id == n)
    db.repositories
    (by obtain ⟨rp, hrm, hrn⟩ := hex; exact ⟨rp, hrm, by simp [hrn]⟩) hlen
  unfold JsonDB.delete_repository
  rw [hpos]
  show (Except.ok (), JsonDB.mk (db.repositories.eraseIdx i) db.groups
    (remove_indexes db.relations
      ((matching_indexes db.relations (fun r => r.id == n)).reverse))) = _
  rw [herase, remove_matching_eq_filter]

theorem filter_filter_contains_cons {α} (f : α → String) (n : String) (ns : List String)
    (l : List α) :
    (l.filter (fun x => !(f x == n))).filter (fun x => !(ns.contains (f x))) =
      l.filter (fun x => !((n :: ns).contains (f x))) := by
  rw [List.filter_filter]
  refine List.filter_congr ?_
  intro x _
  rw [List.contains_cons]
  cases hxn : (f x == n) <;> cases hxr : ns.contains (f x) <;> rfl

theorem delete_groups_loop_spec :
    ∀ (ns : List String) (db : JsonDB),
      (db.groups.map (fun g => g.name)).Nodup → ns.Nodup →
      (∀ n ∈ ns, ∃ g ∈ db.groups, g.name = n) →
      delete_groups_loop db ns = ([], JsonDB.mk db.repositories
        (db.groups.filter (fun g => !(ns.contains g.name)))
        (db.relations.filter (fun r => !(ns.contains r.group)))) := by
  intro ns
  induction ns with
  | nil =>
    intro db _ _ _
    show ([], db) = _
    have h1 : db.groups.filter (fun g => !(List.contains [] g.name)) = db.groups :=
      List.filter_eq_self.mpr (fun a _ => rfl)
    have h2 : db.relations.filter (fun r => !(List.contains [] r.group)) = db.relations :=
      List.filter_eq_self.mpr (fun a _ => rfl)
    rw [h1, h2]
  | cons n rest ih =>
    intro db hnd hns hex
    have hdel := delete_group_unique_spec db n hnd (hex n (List.mem_cons_self n rest))
    have hnsr := List.nodup_cons.mp hns
    have hstep : delete_groups_loop db (n :: rest) =
        delete_groups_loop (JsonDB.mk db.repositories
          (db.groups.filter (fun g => !(g.name == n)))
          (db.relations.filter (fun r => !(r.group == n)))) rest := by
      conv_lhs => unfold delete_groups_loop
      rw [hdel]
    have hnd1 : ((db.groups.filter (fun g => !(g.name == n))).map (fun g => g.name)).Nodup :=
      List.Nodup.sublist (List.Sublist.map _ (List.filter_sublist _)) hnd
    have hex1 : ∀ m ∈ rest,
        ∃ g ∈ db.groups.filter (fun g => !(g.name == n)), g.name = m := by
      intro m hm
      obtain ⟨g, hgm, hgn⟩ := hex m (List.mem_cons_of_mem n hm)
      have hmn : m ≠ n := fun hc => hnsr.1 (hc ▸ hm)
      exact ⟨g, List.mem_filter.mpr ⟨hgm, by simp [hgn, hmn]⟩, hgn⟩
    have hrec := ih (JsonDB.mk db.repositories
      (db.groups.filter (fun g => !(g.name == n)))
      (db.relations.filter (fun r => !(r.group == n)))) hnd1 hnsr.2 hex1
    rw [hstep, hrec]
    show (([] : List RrhError), JsonDB.mk db.repositories
      ((db.groups.filter (fun g => !(g.name == n))).filter
        (fun g => !(rest.contains g.name)))
      ((db.relations.filter (fun r => !(r.group == n))).filter
        (fun r => !(rest.contains r.group)))) = _
    rw [filter_filter_contains_cons (fun g => g.name) n rest db.groups,
      filter_filter_contains_cons (fun r => r.group) n rest db.relations]

theorem delete_repositories_loop_spec :
    ∀ (rs : List Repository) (db : JsonDB),
      (db.repositories.map (fun r => r.id)).Nodup → (rs.map (fun r => r.id)).Nodup →
      (∀ x ∈ rs, ∃ rp ∈ db.repositories, rp.id = x.id) →
      delete_repositories_loop db rs = ([], JsonDB.mk
        (db.repositories.filter (fun rp => !((rs.map (fun r => r.id)).contains rp.id)))
        db.groups
        (db.relations.filter (fun rel => !((rs.map (fun r => r.id)).contains rel.id)))) := by
  intro rs
  induction rs with
  | nil =>
    intro db _ _ _
    show ([], db) = _
    have h1 : db.repositories.filter
        (fun rp => !(List.contains (List.map (fun r : Repository => r.id) []) rp.id)) =
        db.repositories :=
      List.filter_eq_self.mpr (fun a _ => rfl)
    have h2 : db.relations.filter
        (fun rel => !(List.contains (List.map (fun r : Repository => r.id) []) rel.id)) =
        db.relations :=
      List.filter_eq_self.mpr (fun a _ => rfl)
    rw [h1, h2]
  | cons r rest ih =>
    intro db hnd hrs hex
    have hdel := delete_repository_unique_spec db r.id hnd
      (hex r (List.mem_cons_self r rest))
    have hrsr : r.id ∉ rest.map (fun x => x.id) ∧ (rest.map (fun x => x.id)).Nodup := by
      rw [List.map_cons, List.nodup_cons] at hrs
      exact hrs
    have hstep : delete_repositories_loop db (r :: rest) =
        delete_repositories_loop (JsonDB.mk
          (db.repositories.filter (fun rp => !(rp.id == r.id))) db.groups
          (db.relations.filter (fun rel => !(rel.id == r.id)))) rest := by
      conv_lhs => unfold delete_repositories_loop
      rw [hdel]
    have hnd1 : ((db.repositories.filter (fun rp => !(rp.id == r.id))).map
        (fun x => x.id)).Nodup :=
      List.Nodup.sublist (List.Sublist.map _ (List.filter_sublist _)) hnd
    have hex1 : ∀ x ∈ rest,
        ∃ rp ∈ db.repositories.filter (fun rp => !(rp.id == r.id)), rp.id = x.id := by
      intro x hx
      obtain ⟨rp, hrm, hrn⟩ := hex x (List.mem_cons_of_mem r hx)
      have hxid : x.id ≠ r.id := fun hc =>
        hrsr.1 (hc ▸ List.mem_map_of_mem (fun y : Repository => y.id) hx)
      exact ⟨rp, List.mem_filter.mpr ⟨hrm, by simp [hrn, hxid]⟩, hrn⟩
    have hrec := ih (JsonDB.mk
      (db.repositories.filter (fun rp => !(rp.id == r.id))) db.groups
      (db.relations.filter (fun rel => !(rel.id == r.id)))) hnd1 hrsr.2 hex1
    rw [hstep, hrec]
    show (([] : List RrhError), JsonDB.mk
      ((db.repositories.filter (fun rp => !(rp.id == r.id))).filter
        (fun rp => !((rest.map (fun y => y.id)).contains rp.id)))
      db.groups
      ((db.relations.filter (fun rel => !(rel.id == r.id))).filter
        (fun rel => !((rest.map (fun y => y.id)).contains rel.id)))) = _
    rw [filter_filter_contains_cons (fun rp => rp.id) r.id (rest.map (fun y => y.id))
        db.repositories,
      filter_filter_contains_cons (fun rel => rel.id) r.id (rest.map (fun y => y.id))
        db.relations]
    rfl

/-- C7 counterexample: in the store with one group "g", no repositories and
the single (dangling) relation ("ghost","g"), the group "g" is a prune
candidate even though it has a relation — the code's emptiness test counts
member repositories (skipping dangling relations), not relations, so the
candidate set is NOT "exactly the groups with zero relations". -/
theorem find_empty_groups_counts_dangling_group :
    find_empty_groups ⟨[], [Group.new "g"], [⟨"ghost", "g"⟩]⟩ = ["g"] ∧
    (⟨[], [Group.new "g"], [⟨"ghost", "g"⟩]⟩ : JsonDB).relations.filter
      (fun r => r.group == "g") ≠ [] :=
  ⟨rfl, by decide⟩

/-- C7 (amended): under the store invariants (unique group names, unique
repository ids), prune computes as candidate groups exactly the groups with
zero existing member repositories (`is_empty_group`; a group whose relations
all dangle also counts) and as candidate repositories exactly those whose
path does not exist; it deletes exactly those candidates, cascading their
relations; the deletions happen in memory even under dry-run, but dry-run
makes the command signal "no persist", so the persisted store is unchanged. -/
theorem perform_prune_spec (pathExists : String → Bool) (db : JsonDB) (dry_run : Bool)
    (hg : (db.groups.map (fun g => g.name)).Nodup)
    (hr : (db.repositories.map (fun r => r.id)).Nodup) :
    perform_prune pathExists db dry_run = (.ok !dry_run, JsonDB.mk
      (db.repositories.filter (fun r => pathExists r.path))
      (db.groups.filter (fun g => !(is_empty_group db g.name)))
      (db.relations.filter (fun rel =>
        !((find_empty_groups db).contains rel.group) &&
        !(((find_non_exists_path_repositoreis pathExists db).map
          (fun r => r.id)).contains rel.id)))) ∧
    persisted_db db (perform_prune pathExists db true) = db := by
  have htgnd : (find_empty_groups db).Nodup := by
    unfold find_empty_groups
    exact List.Nodup.sublist (List.Sublist.map _ (List.filter_sublist _)) hg
  have htgex : ∀ n ∈ find_empty_groups db, ∃ g ∈ db.groups, g.name = n := by
    intro n hn
    obtain ⟨g, hgm, hgn⟩ := List.mem_map.mp hn
    exact ⟨g, (List.mem_filter.mp hgm).1, hgn⟩
  have hloop1 := delete_groups_loop_spec (find_empty_groups db) db hg htgnd htgex
  have htrnd : ((find_non_exists_path_repositoreis pathExists db).map
      (fun r => r.id)).Nodup := by
    unfold find_non_exists_path_repositoreis
    exact List.Nodup.sublist (List.Sublist.map _ (List.filter_sublist _)) hr
  have htrex : ∀ x ∈ find_non_exists_path_repositoreis pathExists db,
      ∃ rp ∈ (JsonDB.mk db.repositories
        (db.groups.filter (fun g => !((find_empty_groups db).contains g.name)))
        (db.relations.filter (fun r =>
          !((find_empty_groups db).contains r.group)))).repositories, rp.id = x.id := by
    intro x hx
    exact ⟨x, (List.mem_filter.mp hx).1, rfl⟩
  have hloop2 := delete_repositories_loop_spec (find_non_exists_path_repositoreis
      pathExists db)
    (JsonDB.mk db.repositories
      (db.groups.filter (fun g => !((find_empty_groups db).contains g.name)))
      (db.relations.filter (fun r => !((find_empty_groups db).contains r.group))))
    hr htrnd htrex
  have hgpt : ∀ g ∈ db.groups,
      (find_empty_groups db).contains g.name = is_empty_group db g.name := by
    intro g hgm
    cases hie : is_empty_group db g.name with
    | true =>
      have hmem : g.name ∈ find_empty_groups db :=
        List.mem_map_of_mem _ (List.mem_filter.mpr ⟨hgm, hie⟩)
      exact List.elem_iff.mpr hmem
    | false =>
      cases hc : (find_empty_groups db).contains g.name with
      | false => rfl
      | true =>
        exfalso
        obtain ⟨g', hg'm, hg'n⟩ := List.mem_map.mp (List.elem_iff.mp hc)
        obtain ⟨hg'g, hg'e⟩ := List.mem_filter.mp hg'm
        have hgg : g' = g := List.inj_on_of_nodup_map hg hg'g hgm hg'n
        rw [hgg, hie] at hg'e
        cases hg'e
  have hrpt : ∀ rp ∈ db.repositories,
      (!(((find_non_exists_path_repositoreis pathExists db).map
        (fun r => r.id)).contains rp.id)) = pathExists rp.path := by
    intro rp hrm
    cases hpe : pathExists rp.path with
    | true =>
      cases hc : ((find_non_exists_path_repositoreis pathExists db).map
          (fun r => r.id)).contains rp.id with
      | false => rfl
      | true =>
        exfalso
        obtain ⟨x, hxm, hxid⟩ := List.mem_map.mp (List.elem_iff.mp hc)
        obtain ⟨hxrep, hxpe⟩ := List.mem_filter.mp hxm
        have hxrp : x = rp := List.inj_on_of_nodup_map hr hxrep hrm hxid
        rw [hxrp, hpe] at hxpe
        cases hxpe
    | false =>
      have hmem : rp ∈ find_non_exists_path_repositoreis pathExists db :=
        List.mem_filter.mpr ⟨hrm, by rw [hpe]; rfl⟩
      have hc : ((find_non_exists_path_repositoreis pathExists db).map
          (fun r => r.id)).contains rp.id =
          true := List.elem_iff.mpr (List.mem_map_of_mem _ hmem)
      rw [hc]
      rfl
  have hB : db.groups.filter (fun g => !((find_empty_groups db).contains g.name)) =
      db.groups.filter (fun g => !(is_empty_group db g.name)) :=
    List.filter_congr (fun x hx => by rw [hgpt x hx])
  have hA : db.repositories.filter (fun rp =>
      !(((find_non_exists_path_repositoreis pathExists db).map
        (fun r => r.id)).contains rp.id)) =
      db.repositories.filter (fun r => pathExists r.path) :=
    List.filter_congr (fun x hx => hrpt x hx)
  have hC : (db.relations.filter (fun r =>
      !((find_empty_groups db).contains r.group))).filter (fun rel =>
      !(((find_non_exists_path_repositoreis pathExists db).map
        (fun r => r.id)).contains rel.id)) =
      db.relations.filter (fun rel =>
        !((find_empty_groups db).contains rel.group) &&
        !(((find_non_exists_path_repositoreis pathExists db).map
          (fun r => r.id)).contains rel.id)) := by
    rw [List.filter_filter]
    refine List.filter_congr ?_
    intro x _
    cases h1 : (find_empty_groups db).contains x.group <;>
      cases h2 : ((find_non_exists_path_repositoreis pathExists db).map
        (fun r => r.id)).contains x.id <;> rfl
  have key : ∀ dr : Bool, perform_prune pathExists db dr = (.ok !dr, JsonDB.mk
      (db.repositories.filter (fun r => pathExists r.path))
      (db.groups.filter (fun g => !(is_empty_group db g.name)))
      (db.relations.filter (fun rel =>
        !((find_empty_groups db).contains rel.group) &&
        !(((find_non_exists_path_repositoreis pathExists db).map
          (fun r => r.id)).contains rel.id)))) := by
    intro dr
    have himpl : prune_impl db (find_empty_groups db)
        (find_non_exists_path_repositoreis pathExists db) = (.ok true, JsonDB.mk
        (db.repositories.filter (fun r => pathExists r.path))
        (db.groups.filter (fun g => !(is_empty_group db g.name)))
        (db.relations.filter (fun rel =>
          !((find_empty_groups db).contains rel.group) &&
          !(((find_non_exists_path_repositoreis pathExists db).map
            (fun r => r.id)).contains rel.id)))) := by
      unfold prune_impl
      rw [hloop1]
      show (match delete_repositories_loop (JsonDB.mk db.repositories
          (db.groups.filter (fun g => !((find_empty_groups db).contains g.name)))
          (db.relations.filter (fun r => !((find_empty_groups db).contains r.group))))
          (find_non_exists_path_repositoreis pathExists db) with
        | (errs2, db2) =>
          if (([] : List RrhError) ++ errs2).length > 0
          then ((Except.error (RrhError.Arrays ([] ++ errs2)) : Except RrhError Bool), db2)
          else ((Except.ok true : Except RrhError Bool), db2)) = _
      rw [hloop2]
      show ((Except.ok true : Except RrhError Bool), JsonDB.mk
        (db.repositories.filter (fun rp =>
          !(((find_non_exists_path_repositoreis pathExists db).map
            (fun r => r.id)).contains rp.id)))
        (db.groups.filter (fun g => !((find_empty_groups db).contains g.name)))
        ((db.relations.filter (fun r =>
          !((find_empty_groups db).contains r.group))).filter (fun rel =>
          !(((find_non_exists_path_repositoreis pathExists db).map
            (fun r => r.id)).contains rel.id)))) = _
      rw [hA, hB, hC]
    show (match prune_impl db (find_empty_groups db)
        (find_non_exists_path_repositoreis pathExists db) with
      | (.ok true, db') => ((.ok !dr : Except RrhError Bool), db')
      | (.ok false, db') => ((.ok false : Except RrhError Bool), db')
      | (.error e, db') => ((.error e : Except RrhError Bool), db')) = _
    rw [himpl]
  refine ⟨key dry_run, ?_⟩
  rw [key true]
  rfl

/-- C7 witness: a store with one empty group and one repository whose path
exists — prune deletes the empty group, keeps the repository, and under
dry-run nothing is persisted. -/
theorem perform_prune_spec_witness :
    (((⟨[⟨"a", "p", none⟩], [Group.new "g", Group.new "h"],
        [⟨"a", "h"⟩]⟩ : JsonDB).groups.map (fun g => g.name)).Nodup ∧
      ((⟨[⟨"a", "p", none⟩], [Group.new "g", Group.new "h"],
        [⟨"a", "h"⟩]⟩ : JsonDB).repositories.map (fun r => r.id)).Nodup) ∧
    persisted_db (⟨[⟨"a", "p", none⟩], [Group.new "g", Group.new "h"], [⟨"a", "h"⟩]⟩ : JsonDB)
      (perform_prune (fun _ => true)
        ⟨[⟨"a", "p", none⟩], [Group.new "g", Group.new "h"], [⟨"a", "h"⟩]⟩ true) =
      ⟨[⟨"a", "p", none⟩], [Group.new "g", Group.new "h"], [⟨"a", "h"⟩]⟩ :=
  ⟨⟨by decide, by decide⟩,
    (perform_prune_spec (fun _ => true)
      ⟨[⟨"a", "p", none⟩], [Group.new "g", Group.new "h"], [⟨"a", "h"⟩]⟩ true
      (by decide) (by decide)).2⟩

end Rrh
